import Mathlib

/-!
Verification of the moonshot-signup-counter core (time-series ingestion,
resampling, interpolation and trend estimation).

Shallow-embedding conventions, used throughout:
* instants are integer epoch milliseconds (`ℤ`): the code stores ISO-8601
  strings and `Date` objects, whose ordering and arithmetic coincide with
  their millisecond values (hour truncation via local `setMinutes(0,0,0)` is
  modelled for whole-hour UTC offsets, where it agrees with epoch-hour
  truncation);
* JS numbers are modelled as exact rationals (`ℚ`); `NaN` is modelled as
  `none` of an `Option`;
* the `while` loops of the source are modelled by structurally recursive
  functions with an explicit fuel argument that over-approximates the
  iteration count (the pagination loop's fuel is its own `safety` counter);
  lemmas below show the fuel is never exhausted on the inputs of interest,
  so every definition is executable and kernel-evaluable.
-/

set_option maxHeartbeats 1000000

namespace MoonshotCounter

/-- One `(timestamp, cumulative count)` sample, as in the source interface
`DataPoint` and the mapped arrays `allRows` / `points`. -/
structure DataPoint where
  ts : ℤ
  count : ℚ
deriving DecidableEq, Repr

instance : Inhabited DataPoint := ⟨⟨0, 0⟩⟩

/-- Source constant: one minute in milliseconds (`const minute = 60 * 1000`). -/
def minuteMs : ℤ := 60 * 1000

/-- Source constant: one hour in milliseconds (`const hour = 60 * minute`). -/
def hourMs : ℤ := 60 * minuteMs

/-- Source constant: one day in milliseconds (`const day = 24 * hour`). -/
def dayMs : ℤ := 24 * hourMs

/-- Source constant `TARGET_SIGNUPS = 5000`. -/
def TARGET_SIGNUPS : ℚ := 5000

/-! ## Trend Calculator: average rate and completion estimate -/

/-- Average signups per hour, from `fetchData`:
`hoursDiff = timeDiff / (1000*60*60)`, `avgPerHour = signupDiff /
Math.max(hoursDiff, 1e-6)`. -/
def avgPerHour (first latest : DataPoint) : ℚ :=
  let hoursDiff : ℚ := (((latest.ts : ℚ)) - ((first.ts : ℚ))) / (1000 * 60 * 60)
  let signupDiff : ℚ := latest.count - first.count
  signupDiff / max hoursDiff (1 / 1000000)

/-- Completion estimate from `fetchData`:
`remaining = TARGET_SIGNUPS - latest.count`; when `avgPerHour > 0 &&
remaining > 0`, `hoursRemaining = remaining / avgPerHour`,
`daysRemaining = Math.ceil(hoursRemaining / 24)`,
`estimatedCompletion = now + hoursRemaining * 60 * 60 * 1000`;
otherwise `estimatedCompletion = null` and `daysRemaining = 0`.
Returns the pair `(estimatedCompletion, daysRemaining)`. -/
def etaPair (targetCount latestCount avg now : ℚ) : Option ℚ × ℤ :=
  let remaining := targetCount - latestCount
  if 0 < avg ∧ 0 < remaining then
    let hoursRemaining := remaining / avg
    (some (now + hoursRemaining * (60 * 60 * 1000)), ⌈hoursRemaining / 24⌉)
  else (none, 0)

/-! ## Interpolator (`interpCount` in the source) -/

/-- The `while (lo <= hi)` binary-search loop of `interpCount`.
`Sum.inl c` models the early `return points[mid].count` on an exact
timestamp hit; `Sum.inr lo` models falling out of the loop with the final
value of `lo`.  `fuel` bounds the number of iterations; it is never
exhausted when `fuel > hi - lo + 1` (proved below), and the top-level
caller passes `points.length + 1`. -/
def searchLoop (points : List DataPoint) (t : ℤ) : ℕ → ℤ → ℤ → ℚ ⊕ ℤ
  | 0, lo, _ => Sum.inr lo
  | fuel + 1, lo, hi =>
    if lo ≤ hi then
      let mid := (lo + hi) / 2
      let pm := points.getD mid.toNat default
      if pm.ts = t then Sum.inl pm.count
      else if pm.ts < t then searchLoop points t fuel (mid + 1) hi
      else searchLoop points t fuel lo (mid - 1)
    else Sum.inr lo

/-- `interpCount(t)` from the source: clamp below the first and above the
last sample, otherwise binary-search; an exact hit returns that sample's
count, else linearly interpolate between `points[lo-1]` and `points[lo]`. -/
def interpCount (points : List DataPoint) (t : ℤ) : ℚ :=
  let n := points.length
  let p0 := points.getD 0 default
  let pn := points.getD (n - 1) default
  if t ≤ p0.ts then p0.count
  else if pn.ts ≤ t then pn.count
  else
    match searchLoop points t (n + 1) 0 ((n : ℤ) - 1) with
    | Sum.inl c => c
    | Sum.inr lo =>
      let pL := points.getD (lo - 1).toNat default
      let pR := points.getD lo.toNat default
      let frac : ℚ := (((t : ℚ)) - ((pL.ts : ℚ))) / (((pR.ts : ℚ)) - ((pL.ts : ℚ)))
      pL.count + (pR.count - pL.count) * frac

/-! ## Peak-Rate Estimator (`peakHourly` in the source) -/

/-- `peakHourly` from the source: 0 for fewer than two points, else the
maximum over every sample time `t` of
`interpCount(t) - interpCount(t - oneHourMs)`, floored at 0. -/
def peakHourly (points : List DataPoint) : ℚ :=
  if points.length < 2 then 0
  else
    let oneHourMs : ℤ := 60 * 60 * 1000
    let m := points.foldl (fun maxPerHour p =>
      let cT := interpCount points p.ts
      let cT0 := interpCount points (p.ts - oneHourMs)
      let delta := cT - cT0
      if maxPerHour < delta then delta else maxPerHour) 0
    max 0 m

/-! ## Live Updater (realtime subscription handler) -/

/-- A JS value that can sit in the `count` field of a pushed row. -/
inductive JsVal where
  | num (q : ℚ)
  | str (s : String)
  | nullv
  | undef
deriving DecidableEq, Repr

/-- A pushed row; a missing `count` field is `JsVal.undef`. -/
structure JsRecord where
  count : JsVal
deriving DecidableEq, Repr

/-- A realtime payload `{ new?: Record, old?: Record }`. -/
structure RtPayload where
  nw : Option JsRecord
  old : Option JsRecord
deriving DecidableEq, Repr

/-- Character-list trim, modelling `String.trim` on the ASCII whitespace
relevant here (kept as plain list operations so it kernel-evaluates). -/
def jsTrim (s : String) : List Char :=
  (((s.toList.dropWhile Char.isWhitespace).reverse.dropWhile Char.isWhitespace).reverse)

/-- Numeric value of a digit list (most significant first). -/
def digitsVal (cs : List Char) : ℕ :=
  cs.foldl (fun a c => 10 * a + (c.toNat - 48)) 0

/-- JS `Number(string)` conversion, modelled on its decimal-integer
fragment: trimmed-empty strings convert to `0`, optionally signed
all-digit strings to their value, anything else to `NaN` (`none`).
This fragment covers every string payload the specification considers. -/
def parseDecString (s : String) : Option ℚ :=
  let t := jsTrim s
  if t = [] then some 0
  else
    let (neg, ds) : Bool × List Char :=
      match t with
      | '-' :: r => (true, r)
      | '+' :: r => (false, r)
      | r => (false, r)
    if ds ≠ [] ∧ ds.all Char.isDigit then
      let v : ℚ := (digitsVal ds : ℕ)
      some (if neg then -v else v)
    else none

/-- JS `Number(x)` on the modelled values: numbers pass through, `null`
converts to 0, `undefined` to `NaN` (`none`), strings via
`parseDecString`. -/
def jsToNumber : JsVal → Option ℚ
  | JsVal.num q => some q
  | JsVal.nullv => some 0
  | JsVal.undef => none
  | JsVal.str s => parseDecString s

/-- Statistics record, as in the source interface `Stats`. -/
structure Stats where
  totalSignups : ℚ
  averagePerHour : ℚ
  peakSignupsPerHour : ℚ
  estimatedCompletion : Option ℚ
  daysRemaining : ℤ
  lastDayGrowth : ℚ
deriving DecidableEq, Repr

/-- The component state touched by the page: the five `useState` hooks
(`data`, `currentCount`, `lastUpdated`, `loading`, `stats`). -/
structure UiState where
  data : List DataPoint
  currentCount : ℚ
  lastUpdated : String
  loading : Bool
  stats : Option Stats
deriving DecidableEq, Repr

/-- The realtime subscription handler from the source:
`rec = payload.new ?? payload.old; if (!rec) return;`
`newCount = Number(rec.count); if (!isNaN(newCount)) { setCurrentCount;
setLastUpdated }`.  Total: malformed payloads return the state unchanged. -/
def handleRealtime (st : UiState) (p : RtPayload) : UiState :=
  match p.nw.orElse (fun _ => p.old) with
  | none => st
  | some row =>
    match jsToNumber row.count with
    | none => st
    | some newCount =>
      { st with currentCount := newCount, lastUpdated := "< 1 min ago" }

/-! ## Resampler (`resampleTimeSeries` in the source) -/

/-- Bucket-width selection from `resampleTimeSeries`, a pure function of the
filtered series' span: 1 minute within an hour, 10 minutes within a day,
1 hour within 7 days; for longer spans `approx = Math.ceil(span / 240)`,
`bucketMs = Math.max(approx, hour)`, `approxHours = Math.round(bucketMs /
hour)`; if `approxHours <= 24` the width is that many whole hours, else
`Math.max(1, Math.round(approxHours / 24))` whole days. -/
def chooseBucketMs (span : ℤ) : ℤ :=
  if span ≤ hourMs then minuteMs
  else if span ≤ dayMs then 10 * minuteMs
  else if span ≤ 7 * dayMs then hourMs
  else
    let TARGET_POINTS : ℚ := 240
    let approx : ℤ := ⌈((span : ℚ)) / TARGET_POINTS⌉
    let bucketMs := max approx hourMs
    let approxHours : ℤ := round (((bucketMs : ℚ)) / ((hourMs : ℚ)))
    if approxHours ≤ 24 then approxHours * hourMs
    else
      let approxDays : ℤ := max 1 (round (((approxHours : ℚ)) / 24))
      approxDays * dayMs

/-- The long-span bucket-width rule as claim C4 words it: take
`B = max(ceil(span / 240), 1 hour)` and round **B itself** to the nearest
whole hour when B is at most 24 hours, else round **B itself** to the
nearest whole day.  Written out to be compared with `chooseBucketMs`. -/
def claimBucketMs (span : ℤ) : ℤ :=
  if span ≤ hourMs then minuteMs
  else if span ≤ dayMs then 10 * minuteMs
  else if span ≤ 7 * dayMs then hourMs
  else
    let B : ℤ := max ⌈((span : ℚ)) / 240⌉ hourMs
    if B ≤ 24 * hourMs then round (((B : ℚ)) / ((hourMs : ℚ))) * hourMs
    else round (((B : ℚ)) / ((dayMs : ℚ))) * dayMs

/-- The inner `while (j < points.length && ts(points[j]) < bucketStart) j++`
pointer advance of the resampler; the fuel argument (second `ℕ`) is the
number of steps still possible, `points.length - j` at the call site. -/
def advanceAux (points : List DataPoint) (bucketStart : ℤ) : ℕ → ℕ → ℕ
  | j, 0 => j
  | j, k + 1 =>
    if j < points.length ∧ (points.getD j default).ts < bucketStart then
      advanceAux points bucketStart (j + 1) k
    else j

/-- Pointer advance at its call site fuel. -/
def advancePtr (points : List DataPoint) (bucketStart : ℤ) (j : ℕ) : ℕ :=
  advanceAux points bucketStart j (points.length - j)

/-- The bucket-generation `for (let t = firstTs; t <= lastTs; t += bucketMs)`
loop of `resampleTimeSeries`: per bucket, advance the forward pointer past
points before the bucket, consume the first point lying in
`[bucketStart, bucketStart + bucketMs)` if any (`some count`), else emit an
absent bucket (`none`).  `fuel` bounds the iteration count; the caller
passes exactly `span / bucketMs + 1`, which suffices (proved below). -/
def resampleGo (points : List DataPoint) (lastTs bucketMs : ℤ) :
    ℕ → ℤ → ℕ → List (ℤ × Option ℚ)
  | 0, _, _ => []
  | fuel + 1, t, j =>
    if t ≤ lastTs then
      let bucketEnd := t + bucketMs
      let j1 := advancePtr points t j
      if j1 < points.length ∧ t ≤ (points.getD j1 default).ts ∧
          (points.getD j1 default).ts < bucketEnd then
        (t, some (points.getD j1 default).count) ::
          resampleGo points lastTs bucketMs fuel (t + bucketMs) (j1 + 1)
      else (t, none) :: resampleGo points lastTs bucketMs fuel (t + bucketMs) j1
    else []

/-- `resampleTimeSeries` from the source: empty input gives empty output;
otherwise buckets of width `chooseBucketMs span` are walked from the first
sample's time to the last, inclusive. -/
def resampleTimeSeries (points : List DataPoint) : List (ℤ × Option ℚ) :=
  if points.isEmpty then []
  else
    let firstTs := (points.getD 0 default).ts
    let lastTs := (points.getD (points.length - 1) default).ts
    let span := lastTs - firstTs
    let bucketMs := chooseBucketMs span
    resampleGo points lastTs bucketMs ((span / bucketMs).toNat + 1) firstTs 0

/-- Ghost companion of `resampleGo` recording, in order, the index of the
point consumed by each non-absent bucket.  Used only to state and prove
that every point is consumed at most once. -/
def resampleIdxGo (points : List DataPoint) (lastTs bucketMs : ℤ) :
    ℕ → ℤ → ℕ → List ℕ
  | 0, _, _ => []
  | fuel + 1, t, j =>
    if t ≤ lastTs then
      let bucketEnd := t + bucketMs
      let j1 := advancePtr points t j
      if j1 < points.length ∧ t ≤ (points.getD j1 default).ts ∧
          (points.getD j1 default).ts < bucketEnd then
        j1 :: resampleIdxGo points lastTs bucketMs fuel (t + bucketMs) (j1 + 1)
      else resampleIdxGo points lastTs bucketMs fuel (t + bucketMs) j1
    else []

/-! ## Ingestion/Pager (keyset pagination in `fetchData`) -/

/-- A backing-table row.  The key used for keyset pagination is abstracted
as a function (`r.id` for the identifier strategy, `r.ts` for the
timestamp fallback, both totally ordered). -/
structure SignupRow where
  id : ℤ
  ts : ℤ
  count : ℚ
deriving DecidableEq, Repr

instance : Inhabited SignupRow := ⟨⟨0, 0, 0⟩⟩

/-- Source constant `PAGE_SIZE = 1000`. -/
def PAGE_SIZE : ℕ := 1000

/-- One page query,
`SELECT ... WHERE key > lastKey ORDER BY key ASC LIMIT pageSize`, against a
backing table listed in ascending key order. -/
def pageQuery (key : SignupRow → ℤ) (table : List SignupRow)
    (lastKey : Option ℤ) (pageSize : ℕ) : List SignupRow :=
  (match lastKey with
   | none => table
   | some k => table.filter (fun r => k < key r)).take pageSize

/-- The pagination `while (true)` loop of `fetchData`.  Each call performs
one page request; an empty batch breaks the loop, otherwise the batch's
rows are appended (projected to `(timestamp, count)` pairs, as
`allRows.push({timestamp, count})` does), the last row's key becomes the
new exclusive lower bound, and `budget` — the number of further pages the
`safety` counter still allows, initially 100 — is spent.  Returns the
accumulated rows together with the number of page requests issued. -/
def fetchLoop (key : SignupRow → ℤ) (table : List SignupRow) (pageSize : ℕ) :
    ℕ → Option ℤ → List DataPoint → ℕ → List DataPoint × ℕ
  | budget, lastKey, allRows, requests =>
    let batch := pageQuery key table lastKey pageSize
    if batch.isEmpty then (allRows, requests + 1)
    else
      let allRows1 := allRows ++ batch.map (fun r => ⟨r.ts, r.count⟩)
      let lastKey1 := some (key (batch.getLastD default))
      match budget with
      | 0 => (allRows1, requests + 1)
      | b + 1 => fetchLoop key table pageSize b lastKey1 allRows1 (requests + 1)

/-- `fetchAllSamples` for a chosen keyset strategy: run the pagination loop
with page size 1000 and a 100-page safety budget. -/
def fetchAllRows (key : SignupRow → ℤ) (table : List SignupRow) :
    List DataPoint × ℕ :=
  fetchLoop key table PAGE_SIZE 100 none [] 0

/-! ## Hourly downsampling (`hourlyMap` in `fetchData`) -/

/-- Truncation of a timestamp to the top of its hour
(`d.setMinutes(0, 0, 0)`), modelled for whole-hour UTC offsets where it
coincides with flooring the epoch milliseconds to a multiple of an hour. -/
def truncHour (ts : ℤ) : ℤ := ts - ts % 3600000

/-- `Map.set` of a JS `Map`: overwrite the value at an existing key in
place, else append the new entry. -/
def mapSet (m : List (ℤ × ℚ)) (k : ℤ) (v : ℚ) : List (ℤ × ℚ) :=
  if m.any (fun e => e.1 = k) then m.map (fun e => if e.1 = k then (k, v) else e)
  else m ++ [(k, v)]

/-- Building `hourlyMap`: for each raw row in order, set the entry at the
row's truncated hour to the row's count, so the last write within each
hour wins. -/
def hourlyMapBuild (rows : List DataPoint) : List (ℤ × ℚ) :=
  rows.foldl (fun m row => mapSet m (truncHour row.ts) row.count) []

/-- Ascending order on map entries by key, the comparator
`(a, b) => a[0] - b[0]` of the source's sort. -/
def keyLE (a b : ℤ × ℚ) : Prop := a.1 ≤ b.1

instance : DecidableRel keyLE := fun a b => inferInstanceAs (Decidable (a.1 ≤ b.1))

instance : IsTotal (ℤ × ℚ) keyLE := ⟨fun a b => le_total a.1 b.1⟩

instance : IsTrans (ℤ × ℚ) keyLE := ⟨fun _ _ _ hab hbc => le_trans hab hbc⟩

/-- `hourlyData`: the map's entries sorted ascending by hour key and turned
back into samples (`Array.from(hourlyMap.entries()).sort((a, b) =>
a[0] - b[0]).map(...)`). -/
def hourlyData (rows : List DataPoint) : List DataPoint :=
  (List.insertionSort keyLE (hourlyMapBuild rows)).map (fun e => ⟨e.1, e.2⟩)

/-- Association-list lookup, the specification-side accessor for the
modelled `Map`. -/
def lookup : List (ℤ × ℚ) → ℤ → Option ℚ
  | [], _ => none
  | e :: m, k => if e.1 = k then some e.2 else lookup m k

/-- The raw rows falling in the hour `h`. -/
def hourRows (rows : List DataPoint) (h : ℤ) : List DataPoint :=
  rows.filter (fun r => decide (truncHour r.ts = h))

/-! ## Resampler lemmas -/

theorem advanceAux_ge (points : List DataPoint) (b : ℤ) :
    ∀ k j, j ≤ advanceAux points b j k := by
  intro k
  induction k with
  | zero => intro j; simp [advanceAux]
  | succ k ih =>
    intro j
    simp only [advanceAux]
    split
    · exact le_trans (Nat.le_succ j) (ih (j + 1))
    · exact le_refl j

theorem advanceAux_skipped (points : List DataPoint) (b : ℤ) :
    ∀ k j i, j ≤ i → i < advanceAux points b j k →
      (points.getD i default).ts < b := by
  intro k
  induction k with
  | zero => intro j i hji hlt; simp [advanceAux] at hlt; omega
  | succ k ih =>
    intro j i hji hlt
    simp only [advanceAux] at hlt
    split at hlt
    · rename_i hcond
      rcases Nat.eq_or_lt_of_le hji with rfl | hji1
      · exact hcond.2
      · exact ih (j + 1) i hji1 hlt
    · omega

theorem advanceAux_stop (points : List DataPoint) (b : ℤ) :
    ∀ k j, points.length ≤ j + k →
      advanceAux points b j k < points.length →
      ¬ (points.getD (advanceAux points b j k) default).ts < b := by
  intro k
  induction k with
  | zero =>
    intro j hk hlt
    have hlt2 : j < points.length := hlt
    omega
  | succ k ih =>
    intro j hk hlt
    simp only [advanceAux] at hlt ⊢
    split at hlt
    · rename_i hcond
      rw [if_pos hcond]
      exact ih (j + 1) (by omega) hlt
    · rename_i hcond
      rw [if_neg hcond]
      intro hts
      exact hcond ⟨hlt, hts⟩

theorem advancePtr_ge (points : List DataPoint) (b : ℤ) (j : ℕ) :
    j ≤ advancePtr points b j :=
  advanceAux_ge points b _ j

theorem advancePtr_skipped (points : List DataPoint) (b : ℤ) (j i : ℕ)
    (hji : j ≤ i) (hlt : i < advancePtr points b j) :
    (points.getD i default).ts < b :=
  advanceAux_skipped points b _ j i hji hlt

theorem advancePtr_stop (points : List DataPoint) (b : ℤ) (j : ℕ)
    (hlt : advancePtr points b j < points.length) :
    b ≤ (points.getD (advancePtr points b j) default).ts := by
  by_contra hc
  push_neg at hc
  exact advanceAux_stop points b _ j (by omega) hlt hc

theorem resampleGo_nil (points : List DataPoint) (lastTs bucketMs : ℤ)
    (fuel : ℕ) (t : ℤ) (j : ℕ) (ht : lastTs < t) :
    resampleGo points lastTs bucketMs fuel t j = [] := by
  cases fuel with
  | zero => rfl
  | succ fuel => simp [resampleGo, not_le.mpr ht]

theorem resampleGo_starts (points : List DataPoint) (lastTs bucketMs : ℤ)
    (hw : 0 < bucketMs) :
    ∀ (k fuel : ℕ) (t : ℤ) (j : ℕ),
      (k : ℤ) * bucketMs ≤ lastTs - t →
      lastTs - t < ((k : ℤ) + 1) * bucketMs →
      k < fuel →
      (resampleGo points lastTs bucketMs fuel t j).map Prod.fst =
        (List.range (k + 1)).map (fun m : ℕ => t + (m : ℤ) * bucketMs) := by
  intro k
  induction k with
  | zero =>
    intro fuel t j hlo hhi hfuel
    obtain ⟨fuel, rfl⟩ : ∃ f, fuel = f + 1 := ⟨fuel - 1, by omega⟩
    have ht : t ≤ lastTs := by push_cast at hlo; omega
    have ht2 : lastTs < t + bucketMs := by push_cast at hhi; omega
    simp only [resampleGo, if_pos ht]
    have hrest : ∀ j2, resampleGo points lastTs bucketMs fuel (t + bucketMs) j2 = [] :=
      fun j2 => resampleGo_nil points lastTs bucketMs fuel (t + bucketMs) j2 ht2
    split
    · simp [hrest, List.range_succ]
    · simp [hrest, List.range_succ]
  | succ k ih =>
    intro fuel t j hlo hhi hfuel
    obtain ⟨fuel, rfl⟩ : ∃ f, fuel = f + 1 := ⟨fuel - 1, by omega⟩
    have hkw : ((k : ℤ) + 1) * bucketMs = (k : ℤ) * bucketMs + bucketMs := by ring
    have hkw2 : ((k : ℤ) + 1 + 1) * bucketMs = ((k : ℤ) + 1) * bucketMs + bucketMs := by
      ring
    have ht : t ≤ lastTs := by
      push_cast at hlo
      nlinarith [mul_nonneg (Int.ofNat_nonneg k) (le_of_lt hw)]
    have hlo2 : (k : ℤ) * bucketMs ≤ lastTs - (t + bucketMs) := by
      push_cast at hlo ⊢; omega
    have hhi2 : lastTs - (t + bucketMs) < ((k : ℤ) + 1) * bucketMs := by
      push_cast at hhi ⊢; omega
    have hrange : (List.range (k + 1 + 1)).map (fun m : ℕ => t + (m : ℤ) * bucketMs) =
        (t + ((0 : ℕ) : ℤ) * bucketMs) ::
          (List.range (k + 1)).map (fun m : ℕ => (t + bucketMs) + (m : ℤ) * bucketMs) := by
      rw [List.range_succ_eq_map]
      simp only [List.map_cons, List.map_map]
      refine congrArg₂ _ (by push_cast; ring) ?_
      refine List.map_congr_left ?_
      intro m _
      simp only [Function.comp_apply]
      push_cast
      ring
    simp only [resampleGo, if_pos ht]
    have hfuel2 : k < fuel := by omega
    split
    · rw [List.map_cons, ih fuel (t + bucketMs) _ hlo2 hhi2 hfuel2, hrange]
      simp
    · rw [List.map_cons, ih fuel (t + bucketMs) _ hlo2 hhi2 hfuel2, hrange]
      simp

theorem getD_mem_of_lt {α : Type} (l : List α) (d : α) (i : ℕ) (h : i < l.length) :
    l.getD i d ∈ l := by
  rw [List.getD_eq_getElem l d h]
  exact List.getElem_mem h

theorem resampleGo_some_mem (points : List DataPoint) (lastTs bucketMs : ℤ) :
    ∀ (fuel : ℕ) (t : ℤ) (j : ℕ) (b : ℤ × Option ℚ),
      b ∈ resampleGo points lastTs bucketMs fuel t j →
      ∀ c : ℚ, b.2 = some c →
        ∃ p ∈ points, b.1 ≤ p.ts ∧ p.ts < b.1 + bucketMs ∧ p.count = c := by
  intro fuel
  induction fuel with
  | zero =>
    intro t j b hb
    rw [show resampleGo points lastTs bucketMs 0 t j = [] from rfl] at hb
    exact absurd hb (List.not_mem_nil b)
  | succ fuel ih =>
    intro t j b hb c hc
    simp only [resampleGo] at hb
    split at hb
    · split at hb
      · rename_i hcond
        rcases List.mem_cons.mp hb with rfl | hb2
        · refine ⟨points.getD (advancePtr points t j) default, ?_, ?_, ?_, ?_⟩
          · exact getD_mem_of_lt points default _ hcond.1
          · exact hcond.2.1
          · exact hcond.2.2
          · exact Option.some.inj hc
        · exact ih _ _ b hb2 c hc
      · rcases List.mem_cons.mp hb with rfl | hb2
        · simp at hc
        · exact ih _ _ b hb2 c hc
    · simp at hb

theorem resampleIdx_link (points : List DataPoint) (lastTs bucketMs : ℤ) :
    ∀ (fuel : ℕ) (t : ℤ) (j : ℕ),
      (resampleGo points lastTs bucketMs fuel t j).filterMap Prod.snd =
        (resampleIdxGo points lastTs bucketMs fuel t j).map
          (fun i => (points.getD i default).count) := by
  intro fuel
  induction fuel with
  | zero => intro t j; rfl
  | succ fuel ih =>
    intro t j
    simp only [resampleGo, resampleIdxGo]
    split
    · split
      · simp [List.filterMap_cons, ih]
      · simp [List.filterMap_cons, ih]
    · simp

theorem resampleIdx_lb (points : List DataPoint) (lastTs bucketMs : ℤ) :
    ∀ (fuel : ℕ) (t : ℤ) (j i : ℕ),
      i ∈ resampleIdxGo points lastTs bucketMs fuel t j → j ≤ i := by
  intro fuel
  induction fuel with
  | zero => intro t j i hi; simp [resampleIdxGo] at hi
  | succ fuel ih =>
    intro t j i hi
    simp only [resampleIdxGo] at hi
    split at hi
    · split at hi
      · rcases List.mem_cons.mp hi with rfl | hi2
        · exact advancePtr_ge points t j
        · have := ih _ _ i hi2
          have := advancePtr_ge points t j
          omega
      · have := ih _ _ i hi
        have := advancePtr_ge points t j
        omega
    · simp at hi

theorem resampleIdx_sorted (points : List DataPoint) (lastTs bucketMs : ℤ) :
    ∀ (fuel : ℕ) (t : ℤ) (j : ℕ),
      List.Pairwise (fun i1 i2 => i1 < i2)
        (resampleIdxGo points lastTs bucketMs fuel t j) := by
  intro fuel
  induction fuel with
  | zero => intro t j; simp [resampleIdxGo]
  | succ fuel ih =>
    intro t j
    simp only [resampleIdxGo]
    split
    · split
      · refine List.Pairwise.cons ?_ (ih _ _)
        intro i hi
        have := resampleIdx_lb points lastTs bucketMs fuel (t + bucketMs) _ i hi
        omega
      · exact ih _ _
    · simp

theorem resampleIdx_bound (points : List DataPoint) (lastTs bucketMs : ℤ) :
    ∀ (fuel : ℕ) (t : ℤ) (j i : ℕ),
      i ∈ resampleIdxGo points lastTs bucketMs fuel t j → i < points.length := by
  intro fuel
  induction fuel with
  | zero => intro t j i hi; simp [resampleIdxGo] at hi
  | succ fuel ih =>
    intro t j i hi
    simp only [resampleIdxGo] at hi
    split at hi
    · split at hi
      · rename_i hcond
        rcases List.mem_cons.mp hi with rfl | hi2
        · exact hcond.1
        · exact ih _ _ i hi2
      · exact ih _ _ i hi
    · simp at hi

/-- The chosen bucket width is always positive. -/
theorem chooseBucketMs_pos (span : ℤ) : 0 < chooseBucketMs span := by
  unfold chooseBucketMs
  split
  · norm_num [minuteMs]
  split
  · norm_num [minuteMs]
  split
  · norm_num [hourMs, minuteMs]
  have hhour : (0 : ℤ) < hourMs := by norm_num [hourMs, minuteMs]
  have hday : (0 : ℤ) < dayMs := by norm_num [dayMs, hourMs, minuteMs]
  simp only
  split
  · rename_i hle
    have hB : hourMs ≤ max (⌈((span : ℚ)) / 240⌉) hourMs := le_max_right _ _
    have h1 : (1 : ℚ) ≤ ((max (⌈((span : ℚ)) / 240⌉) hourMs : ℤ) : ℚ) / ((hourMs : ℚ)) := by
      rw [le_div_iff₀ (by exact_mod_cast hhour)]
      rw [one_mul]
      exact_mod_cast hB
    have h2 : (1 : ℤ) ≤ round (((max (⌈((span : ℚ)) / 240⌉) hourMs : ℤ) : ℚ) / ((hourMs : ℚ))) := by
      calc (1 : ℤ) = round (1 : ℚ) := by simp
      _ ≤ _ := by
        rw [round_eq, round_eq]
        exact Int.floor_le_floor (by linarith)
    positivity
  · positivity

theorem resampleGo_length (points : List DataPoint) (lastTs bucketMs : ℤ)
    (hw : 0 < bucketMs) (k fuel : ℕ) (t : ℤ) (j : ℕ)
    (hlo : (k : ℤ) * bucketMs ≤ lastTs - t)
    (hhi : lastTs - t < ((k : ℤ) + 1) * bucketMs)
    (hfuel : k < fuel) :
    (resampleGo points lastTs bucketMs fuel t j).length = k + 1 := by
  have h := resampleGo_starts points lastTs bucketMs hw k fuel t j hlo hhi hfuel
  have h2 := congrArg List.length h
  rwa [List.length_map, List.length_map, List.length_range] at h2

theorem ts_first_le_last (points : List DataPoint) (hne : points ≠ [])
    (hsort : List.Pairwise (fun a b => a.ts ≤ b.ts) points) :
    (points.getD 0 default).ts ≤ (points.getD (points.length - 1) default).ts := by
  have hlen : 0 < points.length := List.length_pos.mpr hne
  by_cases h1 : points.length - 1 = 0
  · rw [h1]
  · have h0 : 0 < points.length - 1 := by omega
    rw [List.getD_eq_getElem _ _ hlen, List.getD_eq_getElem _ _ (by omega)]
    exact List.pairwise_iff_getElem.mp hsort 0 (points.length - 1) hlen (by omega) h0

/-! ## Claim C3: resampler bucket structure -/

/-- Claim C3: for a non-empty ordered series, the resampler emits exactly
`floor(span / width) + 1` buckets, in chronological order, one per step of
the chosen width from the first sample's time to the last; every bucket
whose interval holds no sample is `none`; and the consumed sample indices
are strictly increasing, so each sample feeds at most one bucket. -/
theorem claim_C3_resampler (points : List DataPoint) (span w : ℤ)
    (hne : points ≠ [])
    (hsort : List.Pairwise (fun a b => a.ts ≤ b.ts) points)
    (hspan : span =
      (points.getD (points.length - 1) default).ts - (points.getD 0 default).ts)
    (hw : w = chooseBucketMs span) :
    (resampleTimeSeries points).map Prod.fst =
      (List.range ((span / w).toNat + 1)).map
        (fun m : ℕ => (points.getD 0 default).ts + (m : ℤ) * w) ∧
    (resampleTimeSeries points).length = (span / w).toNat + 1 ∧
    (∀ b ∈ resampleTimeSeries points,
      (∀ p ∈ points, ¬(b.1 ≤ p.ts ∧ p.ts < b.1 + w)) → b.2 = none) ∧
    (∃ idxs : List ℕ, List.Pairwise (fun i1 i2 => i1 < i2) idxs ∧
      (∀ i ∈ idxs, i < points.length) ∧
      (resampleTimeSeries points).filterMap Prod.snd =
        idxs.map (fun i => (points.getD i default).count)) := by
  have hwpos : 0 < w := hw ▸ chooseBucketMs_pos span
  have hspan0 : 0 ≤ span := by
    rw [hspan]
    have := ts_first_le_last points hne hsort
    omega
  set k : ℕ := (span / w).toNat with hkdef
  have hk : (k : ℤ) = span / w := Int.toNat_of_nonneg (Int.ediv_nonneg hspan0 hwpos.le)
  have hdm := Int.ediv_add_emod span w
  have hm0 : 0 ≤ span % w := Int.emod_nonneg span (ne_of_gt hwpos)
  have hmw : span % w < w := Int.emod_lt_of_pos span hwpos
  have hkw : (k : ℤ) * w = w * (span / w) := by rw [hk]; ring
  have hlo : (k : ℤ) * w ≤ span := by linarith
  have hhi : span < ((k : ℤ) + 1) * w := by
    have : ((k : ℤ) + 1) * w = (k : ℤ) * w + w := by ring
    linarith
  have hres : resampleTimeSeries points =
      resampleGo points ((points.getD (points.length - 1) default).ts) w (k + 1)
        ((points.getD 0 default).ts) 0 := by
    simp only [resampleTimeSeries]
    rw [if_neg (by simpa [List.isEmpty_iff] using hne)]
    rw [← hspan, ← hw, ← hkdef]
  have hspan2 : span =
      (points.getD (points.length - 1) default).ts - (points.getD 0 default).ts :=
    hspan
  refine ⟨?_, ?_, ?_, ?_⟩
  · rw [hres]
    have := resampleGo_starts points
      ((points.getD (points.length - 1) default).ts) w hwpos k (k + 1)
      ((points.getD 0 default).ts) 0 (by omega) (by omega) (by omega)
    exact this
  · rw [hres]
    exact resampleGo_length points _ w hwpos k (k + 1) _ 0 (by omega) (by omega)
      (by omega)
  · intro b hb hnosample
    rw [hres] at hb
    cases hb2 : b.2 with
    | none => rfl
    | some c =>
      obtain ⟨p, hp, hp1, hp2, _⟩ :=
        resampleGo_some_mem points _ w (k + 1) _ 0 b hb c hb2
      exact absurd ⟨hp1, hp2⟩ (hnosample p hp)
  · refine ⟨resampleIdxGo points ((points.getD (points.length - 1) default).ts) w
      (k + 1) ((points.getD 0 default).ts) 0, ?_, ?_, ?_⟩
    · exact resampleIdx_sorted points _ w (k + 1) _ 0
    · exact fun i hi => resampleIdx_bound points _ w (k + 1) _ 0 i hi
    · rw [hres]
      exact resampleIdx_link points _ w (k + 1) _ 0

/-- Witness for claim C3 on a concrete two-sample series spanning one
minute (bucket width one minute, two buckets). -/
theorem claim_C3_resampler_witness :
    (resampleTimeSeries [⟨0, 5⟩, ⟨60000, 7⟩]).length = 2 :=
  (claim_C3_resampler [⟨0, 5⟩, ⟨60000, 7⟩] 60000 60000 (by decide) (by decide)
    (by decide) (by decide)).2.1

/-! ## Claim C4: adaptive bucket width -/

/-- The long-span rule as amended by the counterexample below: form
`B = max(ceil(span / 240), 1 hour)` and `H = round(B / 1 hour)`; if
`H ≤ 24` the width is `H` whole hours, otherwise it is
`max(1, round(H / 24))` whole days — i.e. the day rounding applies to the
hour-rounded value, not to `B` itself. -/
def amendedLongSpanMs (span : ℤ) : ℤ :=
  let B : ℤ := max ⌈((span : ℚ)) / 240⌉ hourMs
  let H : ℤ := round (((B : ℚ)) / ((hourMs : ℚ)))
  if H ≤ 24 then H * hourMs else max 1 (round (((H : ℚ)) / 24)) * dayMs

/-- The ten-day scenario series: one sample per day for ten days. -/
def tenDaySeries : List DataPoint :=
  (List.range 11).map (fun k => ⟨(k : ℤ) * dayMs, (k : ℚ)⟩)

/-- Claim C4, amended: the bucket width is a function of the span alone —
1 minute within an hour, 10 minutes within a day, 1 hour within 7 days;
beyond 7 days it is `max(ceil(span / 240), 1 hour)` rounded to the nearest
whole hour, and if that exceeds 24 hours the *hour-rounded* value is
rounded to the nearest whole day (with a one-day floor).  A ten-day span
yields a 1-hour width and 241 buckets on the daily ten-day series. -/
theorem claim_C4_bucket_width (span : ℤ) :
    (span ≤ hourMs → chooseBucketMs span = minuteMs) ∧
    (hourMs < span → span ≤ dayMs → chooseBucketMs span = 10 * minuteMs) ∧
    (dayMs < span → span ≤ 7 * dayMs → chooseBucketMs span = hourMs) ∧
    (7 * dayMs < span → chooseBucketMs span = amendedLongSpanMs span) ∧
    chooseBucketMs (10 * dayMs) = hourMs ∧
    (resampleTimeSeries tenDaySeries).length = 241 := by
  refine ⟨?_, ?_, ?_, ?_, ?_, ?_⟩
  · intro h
    unfold chooseBucketMs
    rw [if_pos h]
  · intro h1 h2
    unfold chooseBucketMs
    rw [if_neg (by omega), if_pos h2]
  · intro h1 h2
    unfold chooseBucketMs
    rw [if_neg (by norm_num [hourMs, minuteMs, dayMs] at h1 ⊢; omega),
      if_neg (by omega), if_pos h2]
  · intro h
    unfold chooseBucketMs amendedLongSpanMs
    rw [if_neg (by norm_num [hourMs, minuteMs, dayMs] at h ⊢; omega),
      if_neg (by norm_num [hourMs, minuteMs, dayMs] at h ⊢; omega),
      if_neg (by omega)]
  · norm_num [chooseBucketMs, hourMs, minuteMs, dayMs, Int.ceil_eq_iff, round_eq,
      Int.floor_eq_iff]
  · have hne : tenDaySeries ≠ [] := by decide
    have hfirst : (tenDaySeries.getD 0 default).ts = 0 := by decide
    have hlast : (tenDaySeries.getD (tenDaySeries.length - 1) default).ts =
        864000000 := by decide
    have hbucket : chooseBucketMs 864000000 = 3600000 := by
      norm_num [chooseBucketMs, hourMs, minuteMs, dayMs, Int.ceil_eq_iff, round_eq,
        Int.floor_eq_iff]
    simp only [resampleTimeSeries]
    rw [if_neg (by simpa [List.isEmpty_iff] using hne), hfirst, hlast]
    norm_num [hbucket]
    exact resampleGo_length tenDaySeries 864000000 3600000 (by norm_num) 240 241 0 0
      (by norm_num) (by norm_num) (by norm_num)

/-- Witness for claim C4 at a concrete span in each regime. -/
theorem claim_C4_bucket_width_witness :
    chooseBucketMs 60000 = minuteMs ∧ chooseBucketMs 30758400000 = amendedLongSpanMs 30758400000 :=
  ⟨(claim_C4_bucket_width 60000).1 (by decide),
   (claim_C4_bucket_width 30758400000).2.2.2.1 (by decide)⟩

/-- Counterexample to claim C4 as stated: at span 30758400000 ms (about 356
days) `ceil(span / 240)` is 35.6 hours; the code rounds it to 36 hours and
then rounds 36 h / 24 to 2 days, while the claim's wording rounds 35.6 h
itself to the nearest day, giving 1 day. -/
theorem claim_C4_counterexample :
    chooseBucketMs 30758400000 = 172800000 ∧
    claimBucketMs 30758400000 = 86400000 ∧
    chooseBucketMs 30758400000 ≠ claimBucketMs 30758400000 := by
  have h1 : chooseBucketMs 30758400000 = 172800000 := by
    norm_num [chooseBucketMs, hourMs, minuteMs, dayMs, Int.ceil_eq_iff, round_eq,
      Int.floor_eq_iff]
  have h2 : claimBucketMs 30758400000 = 86400000 := by
    norm_num [claimBucketMs, hourMs, minuteMs, dayMs, Int.ceil_eq_iff, round_eq,
      Int.floor_eq_iff]
  exact ⟨h1, h2, by rw [h1, h2]; decide⟩

/-! ## Interpolator lemmas -/

theorem searchLoop_zero_eq (points : List DataPoint) (t : ℤ) (lo hi : ℤ) :
    searchLoop points t 0 lo hi = Sum.inr lo := rfl

theorem searchLoop_succ_eq (points : List DataPoint) (t : ℤ) (fuel : ℕ)
    (lo hi : ℤ) :
    searchLoop points t (fuel + 1) lo hi =
      (if lo ≤ hi then
        if (points.getD ((lo + hi) / 2).toNat default).ts = t then
          Sum.inl (points.getD ((lo + hi) / 2).toNat default).count
        else if (points.getD ((lo + hi) / 2).toNat default).ts < t then
          searchLoop points t fuel ((lo + hi) / 2 + 1) hi
        else searchLoop points t fuel lo ((lo + hi) / 2 - 1)
      else Sum.inr lo) := rfl

theorem ts_lt_of_sorted (points : List DataPoint)
    (hs : List.Pairwise (fun a b => a.ts < b.ts) points) (i j : ℕ) (hij : i < j)
    (hj : j < points.length) :
    (points.getD i default).ts < (points.getD j default).ts := by
  rw [List.getD_eq_getElem _ _ (lt_trans hij hj), List.getD_eq_getElem _ _ hj]
  exact List.pairwise_iff_getElem.mp hs i j _ _ hij

theorem ts_le_of_sorted (points : List DataPoint)
    (hs : List.Pairwise (fun a b => a.ts < b.ts) points) (i j : ℕ) (hij : i ≤ j)
    (hj : j < points.length) :
    (points.getD i default).ts ≤ (points.getD j default).ts := by
  rcases Nat.eq_or_lt_of_le hij with rfl | hlt
  · exact le_refl _
  · exact le_of_lt (ts_lt_of_sorted points hs i j hlt hj)

theorem cnt_le_of_sorted (points : List DataPoint)
    (hc : List.Pairwise (fun a b => a.count ≤ b.count) points) (i j : ℕ)
    (hij : i ≤ j) (hj : j < points.length) :
    (points.getD i default).count ≤ (points.getD j default).count := by
  rcases Nat.eq_or_lt_of_le hij with rfl | hlt
  · exact le_refl _
  · rw [List.getD_eq_getElem _ _ (lt_trans hlt hj), List.getD_eq_getElem _ _ hj]
    exact List.pairwise_iff_getElem.mp hc i j _ _ hlt

theorem searchLoop_inv (points : List DataPoint) (t : ℤ)
    (hs : List.Pairwise (fun a b => a.ts < b.ts) points) :
    ∀ (fuel : ℕ) (lo hi : ℤ),
      0 ≤ lo → hi ≤ (points.length : ℤ) - 1 →
      (∀ i : ℕ, (i : ℤ) < lo → i < points.length →
        (points.getD i default).ts < t) →
      (∀ i : ℕ, hi < (i : ℤ) → i < points.length →
        t < (points.getD i default).ts) →
      (hi - lo + 1).toNat < fuel →
      (match searchLoop points t fuel lo hi with
       | Sum.inl c => ∃ i : ℕ, i < points.length ∧
           (points.getD i default).ts = t ∧ c = (points.getD i default).count
       | Sum.inr L => 0 ≤ L ∧
           (∀ i : ℕ, (i : ℤ) < L → i < points.length →
             (points.getD i default).ts < t) ∧
           (∀ i : ℕ, L ≤ (i : ℤ) → i < points.length →
             t < (points.getD i default).ts)) := by
  intro fuel
  induction fuel with
  | zero =>
    intro lo hi _ _ _ _ hfuel
    omega
  | succ fuel ih =>
    intro lo hi hlo0 hhin hlow hhigh hfuel
    rw [searchLoop_succ_eq]
    by_cases hlh : lo ≤ hi
    · rw [if_pos hlh]
      have hmid1 : lo ≤ (lo + hi) / 2 := by omega
      have hmid2 : (lo + hi) / 2 ≤ hi := by omega
      have hmidn : ((lo + hi) / 2).toNat < points.length := by omega
      have hmidc : (((lo + hi) / 2).toNat : ℤ) = (lo + hi) / 2 := by omega
      by_cases hts : (points.getD ((lo + hi) / 2).toNat default).ts = t
      · rw [if_pos hts]
        exact ⟨((lo + hi) / 2).toNat, hmidn, hts, rfl⟩
      · rw [if_neg hts]
        by_cases hlt : (points.getD ((lo + hi) / 2).toNat default).ts < t
        · rw [if_pos hlt]
          apply ih ((lo + hi) / 2 + 1) hi (by omega) hhin
          · intro i hi1 hi2
            by_cases hilo : (i : ℤ) < lo
            · exact hlow i hilo hi2
            · have hile : i ≤ ((lo + hi) / 2).toNat := by omega
              calc (points.getD i default).ts
                  ≤ (points.getD ((lo + hi) / 2).toNat default).ts :=
                    ts_le_of_sorted points hs i _ hile hmidn
                _ < t := hlt
          · exact hhigh
          · omega
        · rw [if_neg hlt]
          have hgt : t < (points.getD ((lo + hi) / 2).toNat default).ts := by
            omega
          apply ih lo ((lo + hi) / 2 - 1) hlo0 (by omega) hlow
          · intro i hi1 hi2
            by_cases hihi : hi < (i : ℤ)
            · exact hhigh i hihi hi2
            · have hile : ((lo + hi) / 2).toNat ≤ i := by omega
              calc t < (points.getD ((lo + hi) / 2).toNat default).ts := hgt
                _ ≤ (points.getD i default).ts :=
                    ts_le_of_sorted points hs _ i hile hi2
          · omega
    · rw [if_neg hlh]
      exact ⟨hlo0, hlow, fun i hil hin => hhigh i (by omega) hin⟩

theorem searchLoop_bracket (points : List DataPoint) (t : ℤ)
    (hs : List.Pairwise (fun a b => a.ts < b.ts) points)
    (h0 : (points.getD 0 default).ts < t)
    (h1 : t < (points.getD (points.length - 1) default).ts) :
    (match searchLoop points t (points.length + 1) 0 ((points.length : ℤ) - 1) with
     | Sum.inl c => ∃ i : ℕ, i < points.length ∧ 0 < i ∧
         (points.getD i default).ts = t ∧ c = (points.getD i default).count
     | Sum.inr L => 1 ≤ L ∧ L ≤ (points.length : ℤ) - 1 ∧
         (points.getD (L - 1).toNat default).ts < t ∧
         t < (points.getD L.toNat default).ts) := by
  have hn2 : 2 ≤ points.length := by
    by_contra hcon
    push_neg at hcon
    have hzero : points.length - 1 = 0 := by omega
    rw [hzero] at h1
    omega
  have h := searchLoop_inv points t hs (points.length + 1) 0
    ((points.length : ℤ) - 1) (by omega) (by omega)
    (fun i hi1 _ => absurd hi1 (by omega))
    (fun i hi1 hi2 => absurd hi1 (by omega))
    (by omega)
  revert h
  cases hres : searchLoop points t (points.length + 1) 0 ((points.length : ℤ) - 1) with
  | inl c =>
    intro h
    obtain ⟨i, hin, hts, hc⟩ := h
    refine ⟨i, hin, ?_, hts, hc⟩
    by_contra hi0
    push_neg at hi0
    have : i = 0 := by omega
    subst this
    omega
  | inr L =>
    intro h
    obtain ⟨hL0, hlow, hhigh⟩ := h
    have hL1 : 1 ≤ L := by
      by_contra hcon
      push_neg at hcon
      have := hhigh 0 (by omega) (by omega)
      omega
    have hLn : L ≤ (points.length : ℤ) - 1 := by
      by_contra hcon
      push_neg at hcon
      have := hlow (points.length - 1) (by omega) (by omega)
      omega
    refine ⟨hL1, hLn, ?_, ?_⟩
    · exact hlow (L - 1).toNat (by omega) (by omega)
    · exact hhigh L.toNat (by omega) (by omega)

theorem interpCount_of_le_first (points : List DataPoint) (t : ℤ)
    (h : t ≤ (points.getD 0 default).ts) :
    interpCount points t = (points.getD 0 default).count := by
  simp only [interpCount]
  rw [if_pos h]

theorem interpCount_of_ge_last (points : List DataPoint) (t : ℤ)
    (hfirst : (points.getD 0 default).ts < t)
    (h : (points.getD (points.length - 1) default).ts ≤ t) :
    interpCount points t = (points.getD (points.length - 1) default).count := by
  simp only [interpCount]
  rw [if_neg (by omega), if_pos h]

theorem interpCount_interior (points : List DataPoint) (t : ℤ)
    (hs : List.Pairwise (fun a b => a.ts < b.ts) points)
    (h0 : (points.getD 0 default).ts < t)
    (h1 : t < (points.getD (points.length - 1) default).ts) :
    ∃ k : ℕ, k + 1 ≤ points.length - 1 ∧
      (points.getD k default).ts < t ∧ t ≤ (points.getD (k + 1) default).ts ∧
      interpCount points t =
        (points.getD k default).count +
          ((points.getD (k + 1) default).count - (points.getD k default).count) *
            (((t : ℚ) - (((points.getD k default).ts : ℤ) : ℚ)) /
              ((((points.getD (k + 1) default).ts : ℤ) : ℚ) -
                (((points.getD k default).ts : ℤ) : ℚ))) := by
  have hn2 : 2 ≤ points.length := by
    by_contra hcon
    push_neg at hcon
    have hzero : points.length - 1 = 0 := by omega
    rw [hzero] at h1
    omega
  have hval : interpCount points t =
      (match searchLoop points t (points.length + 1) 0 ((points.length : ℤ) - 1) with
       | Sum.inl c => c
       | Sum.inr lo =>
         (points.getD (lo - 1).toNat default).count +
           ((points.getD lo.toNat default).count -
             (points.getD (lo - 1).toNat default).count) *
             (((t : ℚ) - (((points.getD (lo - 1).toNat default).ts : ℤ) : ℚ)) /
               ((((points.getD lo.toNat default).ts : ℤ) : ℚ) -
                 (((points.getD (lo - 1).toNat default).ts : ℤ) : ℚ)))) := by
    simp only [interpCount]
    rw [if_neg (by omega), if_neg (by omega)]
  have hbr := searchLoop_bracket points t hs h0 h1
  cases hres : searchLoop points t (points.length + 1) 0 ((points.length : ℤ) - 1) with
  | inl c =>
    rw [hres] at hbr hval
    obtain ⟨i, hin, hipos, hts, hc⟩ := hbr
    have hval2 : interpCount points t = c := hval
    refine ⟨i - 1, by omega, ?_, ?_, ?_⟩
    · have := ts_lt_of_sorted points hs (i - 1) i (by omega) hin
      omega
    · rw [show i - 1 + 1 = i from by omega, hts]
    · rw [hval2, hc]
      rw [show i - 1 + 1 = i from by omega]
      have hden : (((points.getD i default).ts : ℤ) : ℚ) -
          (((points.getD (i - 1) default).ts : ℤ) : ℚ) ≠ 0 := by
        have := ts_lt_of_sorted points hs (i - 1) i (by omega) hin
        have hcast : (((points.getD (i - 1) default).ts : ℤ) : ℚ) <
            (((points.getD i default).ts : ℤ) : ℚ) := by exact_mod_cast this
        linarith
      rw [show ((t : ℤ) : ℚ) = (((points.getD i default).ts : ℤ) : ℚ) from by
        exact_mod_cast congrArg (fun z : ℤ => (z : ℚ)) hts.symm]
      rw [div_self hden, mul_one]
      ring
  | inr L =>
    rw [hres] at hbr hval
    obtain ⟨hL1, hLn, hlow, hhigh⟩ := hbr
    have hval2 : interpCount points t =
        (points.getD (L - 1).toNat default).count +
          ((points.getD L.toNat default).count -
            (points.getD (L - 1).toNat default).count) *
            (((t : ℚ) - (((points.getD (L - 1).toNat default).ts : ℤ) : ℚ)) /
              ((((points.getD L.toNat default).ts : ℤ) : ℚ) -
                (((points.getD (L - 1).toNat default).ts : ℤ) : ℚ))) := hval
    refine ⟨(L - 1).toNat, by omega, hlow, ?_, ?_⟩
    · rw [show (L - 1).toNat + 1 = L.toNat from by omega]
      exact le_of_lt hhigh
    · rw [hval2]
      rw [show (L - 1).toNat + 1 = L.toNat from by omega]

/-! ## Claim C9: interpolator search safety -/

/-- Claim C9: on a strictly sorted series, whenever the linear-interpolation
branch can be reached (the query time lies strictly between the first and
last timestamps), the binary search either hits an exact sample at a valid
index or exits with `lo` satisfying `1 ≤ lo ≤ n - 1`, so `left = lo - 1`
and `right = lo` are in bounds with `left < right` and the interpolation
denominator `pR.ts - pL.ts` is strictly positive: no out-of-bounds access
and no division by zero.  (Termination holds by construction: `searchLoop`
is total and its fuel is never exhausted along this invariant.) -/
theorem claim_C9_search_safety (points : List DataPoint) (t : ℤ)
    (hs : List.Pairwise (fun a b => a.ts < b.ts) points)
    (h0 : (points.getD 0 default).ts < t)
    (h1 : t < (points.getD (points.length - 1) default).ts) :
    (match searchLoop points t (points.length + 1) 0 ((points.length : ℤ) - 1) with
     | Sum.inl c => ∃ i : ℕ, i < points.length ∧
         (points.getD i default).ts = t ∧ c = (points.getD i default).count
     | Sum.inr L => 0 ≤ L - 1 ∧ L - 1 < L ∧ L ≤ (points.length : ℤ) - 1 ∧
         (points.getD (L - 1).toNat default).ts < t ∧
         t < (points.getD L.toNat default).ts ∧
         0 < (points.getD L.toNat default).ts -
           (points.getD (L - 1).toNat default).ts) := by
  have hbr := searchLoop_bracket points t hs h0 h1
  revert hbr
  cases hres : searchLoop points t (points.length + 1) 0 ((points.length : ℤ) - 1) with
  | inl c =>
    intro hbr
    obtain ⟨i, hin, _, hts, hc⟩ := hbr
    exact ⟨i, hin, hts, hc⟩
  | inr L =>
    intro hbr
    obtain ⟨hL1, hLn, hlow, hhigh⟩ := hbr
    exact ⟨by omega, by omega, hLn, hlow, hhigh, by omega⟩

/-- Witness for claim C9 on a concrete three-point series. -/
theorem claim_C9_search_safety_witness :
    (match searchLoop [⟨0, 0⟩, ⟨3600000, 10⟩, ⟨7200000, 20⟩] 1800000
        (([⟨0, 0⟩, ⟨3600000, 10⟩, ⟨7200000, 20⟩] : List DataPoint).length + 1) 0
        ((([⟨0, 0⟩, ⟨3600000, 10⟩, ⟨7200000, 20⟩] : List DataPoint).length : ℤ) - 1) with
     | Sum.inl c => ∃ i : ℕ, i < ([⟨0, 0⟩, ⟨3600000, 10⟩, ⟨7200000, 20⟩] : List DataPoint).length ∧
         (([⟨0, 0⟩, ⟨3600000, 10⟩, ⟨7200000, 20⟩] : List DataPoint).getD i default).ts = 1800000 ∧
         c = (([⟨0, 0⟩, ⟨3600000, 10⟩, ⟨7200000, 20⟩] : List DataPoint).getD i default).count
     | Sum.inr L => 0 ≤ L - 1 ∧ L - 1 < L ∧
         L ≤ ((([⟨0, 0⟩, ⟨3600000, 10⟩, ⟨7200000, 20⟩] : List DataPoint).length : ℤ)) - 1 ∧
         (([⟨0, 0⟩, ⟨3600000, 10⟩, ⟨7200000, 20⟩] : List DataPoint).getD (L - 1).toNat default).ts < 1800000 ∧
         1800000 < (([⟨0, 0⟩, ⟨3600000, 10⟩, ⟨7200000, 20⟩] : List DataPoint).getD L.toNat default).ts ∧
         0 < (([⟨0, 0⟩, ⟨3600000, 10⟩, ⟨7200000, 20⟩] : List DataPoint).getD L.toNat default).ts -
           (([⟨0, 0⟩, ⟨3600000, 10⟩, ⟨7200000, 20⟩] : List DataPoint).getD (L - 1).toNat default).ts) :=
  claim_C9_search_safety [⟨0, 0⟩, ⟨3600000, 10⟩, ⟨7200000, 20⟩] 1800000
    (by decide) (by decide) (by decide)

theorem seg_lb (cL cR tsL tsR tq : ℚ) (hle : cL ≤ cR) (hlt : tsL < tq)
    (hup : tq ≤ tsR) :
    cL ≤ cL + (cR - cL) * ((tq - tsL) / (tsR - tsL)) := by
  have hden : 0 < tsR - tsL := by linarith
  have hfrac : 0 ≤ (tq - tsL) / (tsR - tsL) :=
    div_nonneg (by linarith) (by linarith)
  nlinarith [mul_nonneg (by linarith : (0 : ℚ) ≤ cR - cL) hfrac]

theorem seg_ub (cL cR tsL tsR tq : ℚ) (hle : cL ≤ cR) (hlt : tsL < tq)
    (hup : tq ≤ tsR) :
    cL + (cR - cL) * ((tq - tsL) / (tsR - tsL)) ≤ cR := by
  have hden : 0 < tsR - tsL := by linarith
  have hfrac : (tq - tsL) / (tsR - tsL) ≤ 1 := by
    rw [div_le_one hden]
    linarith
  nlinarith [mul_nonneg (by linarith : (0 : ℚ) ≤ cR - cL)
    (by linarith : (0 : ℚ) ≤ 1 - (tq - tsL) / (tsR - tsL))]

theorem seg_mono (cL cR tsL tsR t1 t2 : ℚ) (hle : cL ≤ cR) (hden : 0 < tsR - tsL)
    (h12 : t1 ≤ t2) :
    cL + (cR - cL) * ((t1 - tsL) / (tsR - tsL)) ≤
      cL + (cR - cL) * ((t2 - tsL) / (tsR - tsL)) := by
  have hf : (t1 - tsL) / (tsR - tsL) ≤ (t2 - tsL) / (tsR - tsL) := by
    gcongr
  nlinarith [mul_le_mul_of_nonneg_left hf (by linarith : (0 : ℚ) ≤ cR - cL)]

theorem interp_ge_first (points : List DataPoint) (hne : points ≠ [])
    (hs : List.Pairwise (fun a b => a.ts < b.ts) points)
    (hc : List.Pairwise (fun a b => a.count ≤ b.count) points) (t : ℤ) :
    (points.getD 0 default).count ≤ interpCount points t := by
  have hn : 0 < points.length := List.length_pos.mpr hne
  by_cases hA : t ≤ (points.getD 0 default).ts
  · rw [interpCount_of_le_first points t hA]
  · push_neg at hA
    by_cases hB : (points.getD (points.length - 1) default).ts ≤ t
    · rw [interpCount_of_ge_last points t hA hB]
      exact cnt_le_of_sorted points hc 0 (points.length - 1) (by omega) (by omega)
    · push_neg at hB
      obtain ⟨k, hkn, hkl, hkr, hval⟩ := interpCount_interior points t hs hA hB
      rw [hval]
      calc (points.getD 0 default).count
          ≤ (points.getD k default).count :=
            cnt_le_of_sorted points hc 0 k (by omega) (by omega)
        _ ≤ _ := seg_lb (points.getD k default).count
            (points.getD (k + 1) default).count
            (((points.getD k default).ts : ℤ) : ℚ)
            (((points.getD (k + 1) default).ts : ℤ) : ℚ) ((t : ℤ) : ℚ)
            (cnt_le_of_sorted points hc k (k + 1) (by omega) (by omega))
            (by exact_mod_cast hkl) (by exact_mod_cast hkr)

theorem interp_le_last (points : List DataPoint) (hne : points ≠ [])
    (hs : List.Pairwise (fun a b => a.ts < b.ts) points)
    (hc : List.Pairwise (fun a b => a.count ≤ b.count) points) (t : ℤ) :
    interpCount points t ≤ (points.getD (points.length - 1) default).count := by
  have hn : 0 < points.length := List.length_pos.mpr hne
  by_cases hA : t ≤ (points.getD 0 default).ts
  · rw [interpCount_of_le_first points t hA]
    exact cnt_le_of_sorted points hc 0 (points.length - 1) (by omega) (by omega)
  · push_neg at hA
    by_cases hB : (points.getD (points.length - 1) default).ts ≤ t
    · rw [interpCount_of_ge_last points t hA hB]
    · push_neg at hB
      obtain ⟨k, hkn, hkl, hkr, hval⟩ := interpCount_interior points t hs hA hB
      rw [hval]
      calc _ ≤ (points.getD (k + 1) default).count :=
            seg_ub (points.getD k default).count
              (points.getD (k + 1) default).count
              (((points.getD k default).ts : ℤ) : ℚ)
              (((points.getD (k + 1) default).ts : ℤ) : ℚ) ((t : ℤ) : ℚ)
              (cnt_le_of_sorted points hc k (k + 1) (by omega) (by omega))
              (by exact_mod_cast hkl) (by exact_mod_cast hkr)
        _ ≤ (points.getD (points.length - 1) default).count :=
            cnt_le_of_sorted points hc (k + 1) (points.length - 1) (by omega)
              (by omega)

/-! ## Claim C5: interpolation monotonicity -/

/-- Claim C5: on a non-empty series with strictly increasing timestamps and
non-decreasing counts, the interpolated value is a non-decreasing function
of the query time, clamped regions included. -/
theorem claim_C5_interp_monotone (points : List DataPoint) (hne : points ≠ [])
    (hs : List.Pairwise (fun a b => a.ts < b.ts) points)
    (hc : List.Pairwise (fun a b => a.count ≤ b.count) points)
    (t1 t2 : ℤ) (h12 : t1 ≤ t2) :
    interpCount points t1 ≤ interpCount points t2 := by
  have hn : 0 < points.length := List.length_pos.mpr hne
  by_cases hA1 : t1 ≤ (points.getD 0 default).ts
  · rw [interpCount_of_le_first points t1 hA1]
    exact interp_ge_first points hne hs hc t2
  · push_neg at hA1
    have hA2 : (points.getD 0 default).ts < t2 := by omega
    by_cases hB1 : (points.getD (points.length - 1) default).ts ≤ t1
    · rw [interpCount_of_ge_last points t1 hA1 hB1,
        interpCount_of_ge_last points t2 hA2 (by omega)]
    · push_neg at hB1
      obtain ⟨k1, hk1n, hk1l, hk1r, hval1⟩ :=
        interpCount_interior points t1 hs hA1 hB1
      by_cases hB2 : (points.getD (points.length - 1) default).ts ≤ t2
      · rw [hval1, interpCount_of_ge_last points t2 hA2 hB2]
        calc _ ≤ (points.getD (k1 + 1) default).count :=
              seg_ub (points.getD k1 default).count
                (points.getD (k1 + 1) default).count
                (((points.getD k1 default).ts : ℤ) : ℚ)
                (((points.getD (k1 + 1) default).ts : ℤ) : ℚ) ((t1 : ℤ) : ℚ)
                (cnt_le_of_sorted points hc k1 (k1 + 1) (by omega) (by omega))
                (by exact_mod_cast hk1l) (by exact_mod_cast hk1r)
          _ ≤ (points.getD (points.length - 1) default).count :=
              cnt_le_of_sorted points hc (k1 + 1) (points.length - 1) (by omega)
                (by omega)
      · push_neg at hB2
        obtain ⟨k2, hk2n, hk2l, hk2r, hval2⟩ :=
          interpCount_interior points t2 hs hA2 hB2
        rw [hval1, hval2]
        have hk12 : k1 ≤ k2 := by
          by_contra hcon
          push_neg at hcon
          have hts : (points.getD (k2 + 1) default).ts ≤
              (points.getD k1 default).ts :=
            ts_le_of_sorted points hs (k2 + 1) k1 (by omega) (by omega)
          omega
        rcases Nat.eq_or_lt_of_le hk12 with rfl | hlt12
        · have hdenpos : (0 : ℚ) < (((points.getD (k1 + 1) default).ts : ℤ) : ℚ) -
              (((points.getD k1 default).ts : ℤ) : ℚ) := by
            have := ts_lt_of_sorted points hs k1 (k1 + 1) (by omega) (by omega)
            have hcast : ((((points.getD k1 default).ts : ℤ)) : ℚ) <
                (((points.getD (k1 + 1) default).ts : ℤ) : ℚ) := by
              exact_mod_cast this
            linarith
          exact seg_mono (points.getD k1 default).count
            (points.getD (k1 + 1) default).count
            (((points.getD k1 default).ts : ℤ) : ℚ)
            (((points.getD (k1 + 1) default).ts : ℤ) : ℚ)
            ((t1 : ℤ) : ℚ) ((t2 : ℤ) : ℚ)
            (cnt_le_of_sorted points hc k1 (k1 + 1) (by omega) (by omega))
            hdenpos (by exact_mod_cast h12)
        · calc _ ≤ (points.getD (k1 + 1) default).count :=
                seg_ub (points.getD k1 default).count
                  (points.getD (k1 + 1) default).count
                  (((points.getD k1 default).ts : ℤ) : ℚ)
                  (((points.getD (k1 + 1) default).ts : ℤ) : ℚ) ((t1 : ℤ) : ℚ)
                  (cnt_le_of_sorted points hc k1 (k1 + 1) (by omega) (by omega))
                  (by exact_mod_cast hk1l) (by exact_mod_cast hk1r)
            _ ≤ (points.getD k2 default).count :=
                cnt_le_of_sorted points hc (k1 + 1) k2 (by omega) (by omega)
            _ ≤ _ :=
                seg_lb (points.getD k2 default).count
                  (points.getD (k2 + 1) default).count
                  (((points.getD k2 default).ts : ℤ) : ℚ)
                  (((points.getD (k2 + 1) default).ts : ℤ) : ℚ) ((t2 : ℤ) : ℚ)
                  (cnt_le_of_sorted points hc k2 (k2 + 1) (by omega) (by omega))
                  (by exact_mod_cast hk2l) (by exact_mod_cast hk2r)

/-- Witness for claim C5 on a concrete sorted, non-decreasing series. -/
theorem claim_C5_interp_monotone_witness :
    interpCount [⟨0, 0⟩, ⟨2, 1⟩] 0 ≤ interpCount [⟨0, 0⟩, ⟨2, 1⟩] 1 :=
  claim_C5_interp_monotone [⟨0, 0⟩, ⟨2, 1⟩] (by decide) (by decide) (by decide)
    0 1 (by decide)

/-! ## Pager lemmas -/

theorem key_le_getLast (key : SignupRow → ℤ) :
    ∀ (l : List SignupRow), List.Pairwise (fun a b => key a < key b) l →
      ∀ (hne : l ≠ []) (x : SignupRow), x ∈ l → key x ≤ key (l.getLast hne) := by
  intro l
  induction l with
  | nil => intro _ hne; exact absurd rfl hne
  | cons a l ih =>
    intro hs hne x hx
    cases l with
    | nil =>
      simp only [List.mem_singleton] at hx
      subst hx
      exact le_refl _
    | cons b l2 =>
      rw [List.getLast_cons_cons]
      rcases List.mem_cons.mp hx with rfl | hx2
      · have hmem : (b :: l2).getLast (List.cons_ne_nil b l2) ∈ b :: l2 :=
          List.getLast_mem _
        exact le_of_lt ((List.pairwise_cons.mp hs).1 _ hmem)
      · exact ih (List.pairwise_cons.mp hs).2 (List.cons_ne_nil b l2) x hx2

theorem pageQuery_eq_take (key : SignupRow → ℤ) (consumed rest : List SignupRow)
    (hsorted : List.Pairwise (fun a b => key a < key b) (consumed ++ rest))
    (P : ℕ) (lastKey : Option ℤ)
    (hcase : (consumed = [] ∧ lastKey = none) ∨
      (∃ hne : consumed ≠ [], lastKey = some (key (consumed.getLast hne)))) :
    pageQuery key (consumed ++ rest) lastKey P = rest.take P := by
  rcases hcase with ⟨hc, hl⟩ | ⟨hne, hl⟩
  · subst hc hl
    simp [pageQuery]
  · subst hl
    show (List.filter (fun r => decide (key (consumed.getLast hne) < key r))
      (consumed ++ rest)).take P = rest.take P
    rw [List.filter_append]
    have h1 : consumed.filter
        (fun r => decide (key (consumed.getLast hne) < key r)) = [] := by
      rw [List.filter_eq_nil_iff]
      intro r hr
      have := key_le_getLast key consumed (List.pairwise_append.mp hsorted).1 hne r hr
      simp only [decide_eq_true_eq]
      omega
    have h2 : rest.filter
        (fun r => decide (key (consumed.getLast hne) < key r)) = rest := by
      rw [List.filter_eq_self]
      intro r hr
      have hlt := (List.pairwise_append.mp hsorted).2.2 (consumed.getLast hne)
        (List.getLast_mem hne) r hr
      simpa using hlt
    rw [h1, h2, List.nil_append]

theorem fetchLoop_zero_eq (key : SignupRow → ℤ) (table : List SignupRow)
    (pageSize : ℕ) (lastKey : Option ℤ) (acc : List DataPoint) (reqs : ℕ) :
    fetchLoop key table pageSize 0 lastKey acc reqs =
      (if (pageQuery key table lastKey pageSize).isEmpty then (acc, reqs + 1)
       else (acc ++ (pageQuery key table lastKey pageSize).map
          (fun r => ⟨r.ts, r.count⟩), reqs + 1)) := rfl

theorem fetchLoop_succ_eq (key : SignupRow → ℤ) (table : List SignupRow)
    (pageSize : ℕ) (b : ℕ) (lastKey : Option ℤ) (acc : List DataPoint) (reqs : ℕ) :
    fetchLoop key table pageSize (b + 1) lastKey acc reqs =
      (if (pageQuery key table lastKey pageSize).isEmpty then (acc, reqs + 1)
       else fetchLoop key table pageSize b
         (some (key ((pageQuery key table lastKey pageSize).getLastD default)))
         (acc ++ (pageQuery key table lastKey pageSize).map
           (fun r => ⟨r.ts, r.count⟩))
         (reqs + 1)) := rfl

theorem fetchLoop_spec (key : SignupRow → ℤ) (table : List SignupRow)
    (hsorted : List.Pairwise (fun a b => key a < key b) table) :
    ∀ (budget : ℕ) (consumed rest : List SignupRow) (lastKey : Option ℤ)
      (acc : List DataPoint) (reqs : ℕ),
      table = consumed ++ rest →
      ((consumed = [] ∧ lastKey = none) ∨
        (∃ hne : consumed ≠ [], lastKey = some (key (consumed.getLast hne)))) →
      rest.length ≤ budget * 1000 →
      fetchLoop key table 1000 budget lastKey acc reqs =
        (acc ++ rest.map (fun r => ⟨r.ts, r.count⟩),
         reqs + (rest.length + 999) / 1000 + 1) := by
  intro budget
  induction budget with
  | zero =>
    intro consumed rest lastKey acc reqs htab hkey hlen
    have hrest : rest = [] := List.eq_nil_of_length_eq_zero (by omega)
    subst hrest
    have hbatch : pageQuery key table lastKey 1000 = ([] : List SignupRow).take 1000 := by
      rw [htab]
      exact pageQuery_eq_take key consumed [] (htab ▸ hsorted) 1000 lastKey hkey
    rw [fetchLoop_zero_eq, hbatch]
    simp
  | succ b ih =>
    intro consumed rest lastKey acc reqs htab hkey hlen
    have hbatch : pageQuery key table lastKey 1000 = rest.take 1000 := by
      rw [htab]
      exact pageQuery_eq_take key consumed rest (htab ▸ hsorted) 1000 lastKey hkey
    cases hrest : rest with
    | nil =>
      subst hrest
      rw [fetchLoop_succ_eq, hbatch]
      simp
    | cons r0 rrest =>
      subst hrest
      have hbne : (r0 :: rrest).take 1000 ≠ [] := by
        rw [Ne, List.take_eq_nil_iff]
        push_neg
        exact ⟨by omega, List.cons_ne_nil r0 rrest⟩
      have hlast : ((r0 :: rrest).take 1000).getLastD default =
          ((r0 :: rrest).take 1000).getLast hbne := by
        rw [List.getLastD_eq_getLast?, List.getLast?_eq_getLast_of_ne_nil hbne]
        rfl
      have hconsne : consumed ++ (r0 :: rrest).take 1000 ≠ [] := by
        intro hc
        rw [List.append_eq_nil] at hc
        exact hbne hc.2
      have hgl : (consumed ++ (r0 :: rrest).take 1000).getLast hconsne =
          ((r0 :: rrest).take 1000).getLast hbne := by
        rw [List.getLast_append]
        rw [dif_neg (by simp only [List.isEmpty_iff]; exact hbne)]
      have htab2 : table = (consumed ++ (r0 :: rrest).take 1000) ++
          (r0 :: rrest).drop 1000 := by
        rw [List.append_assoc, List.take_append_drop]
        exact htab
      have hlen2 : ((r0 :: rrest).drop 1000).length ≤ b * 1000 := by
        rw [List.length_drop]
        have : (r0 :: rrest).length ≤ (b + 1) * 1000 := hlen
        omega
      have hrec := ih (consumed ++ (r0 :: rrest).take 1000) ((r0 :: rrest).drop 1000)
        (some (key (((r0 :: rrest).take 1000).getLastD default)))
        (acc ++ ((r0 :: rrest).take 1000).map (fun r => ⟨r.ts, r.count⟩))
        (reqs + 1) htab2
        (Or.inr ⟨hconsne, by rw [hlast, hgl]⟩) hlen2
      rw [fetchLoop_succ_eq, hbatch]
      rw [if_neg (by simp only [List.isEmpty_iff]; exact hbne)]
      rw [hrec]
      have hlist : (acc ++ ((r0 :: rrest).take 1000).map (fun r => ⟨r.ts, r.count⟩)) ++
          ((r0 :: rrest).drop 1000).map (fun r => (⟨r.ts, r.count⟩ : DataPoint)) =
          acc ++ (r0 :: rrest).map (fun r => ⟨r.ts, r.count⟩) := by
        rw [List.append_assoc, ← List.map_append, List.take_append_drop]
      rw [hlist]
      have hlenpos : 0 < (r0 :: rrest).length := by simp
      have harith : reqs + 1 + (((r0 :: rrest).drop 1000).length + 999) / 1000 + 1 =
          reqs + ((r0 :: rrest).length + 999) / 1000 + 1 := by
        rw [List.length_drop]
        omega
      rw [harith]

/-! ## Claim C1: keyset pagination -/

/-- Claim C1, amended: for a backing table of N rows listed in strictly
ascending key order with N at most 100 pages' worth of rows, the pager
returns exactly the N rows, projected in order (hence ascending, without
duplicates), and issues `ceil(N / 1000) + 1` page requests — one per
non-empty page plus a final request that returns zero rows; the loop
terminates only when a page comes back empty (or on error or the
100-page safety cap). -/
theorem claim_C1_pagination (key : SignupRow → ℤ) (table : List SignupRow)
    (hsorted : List.Pairwise (fun a b => key a < key b) table)
    (hlen : table.length ≤ 100000) :
    fetchAllRows key table =
      (table.map (fun r => ⟨r.ts, r.count⟩), (table.length + 999) / 1000 + 1) ∧
    (fetchAllRows key table).1.length = table.length := by
  have h := fetchLoop_spec key table hsorted 100 [] table none [] 0 rfl
    (Or.inl ⟨rfl, rfl⟩) (by omega)
  have hall : fetchAllRows key table = fetchLoop key table 1000 100 none [] 0 := rfl
  constructor
  · rw [hall, h]
    simp
  · rw [hall, h]
    simp

/-- Witness for claim C1 on a one-row table: all rows returned in 2
requests. -/
theorem claim_C1_pagination_witness :
    fetchAllRows (fun r => r.id) [⟨1, 5, 3⟩] = ([⟨5, 3⟩], 2) :=
  (claim_C1_pagination (fun r => r.id) [⟨1, 5, 3⟩] (by decide) (by decide)).1

/-- Counterexample to claim C1 as stated: on a one-row table the pager
issues 2 page requests (the second one returns zero rows and breaks the
loop), not `ceil(1 / 1000) = 1`; the loop never stops on a short page,
only on an empty one. -/
theorem claim_C1_counterexample :
    fetchAllRows (fun r => r.id) [⟨1, 5, 3⟩] =
      ([⟨5, 3⟩], 2) ∧ (2 : ℕ) ≠ (1 + 1000 - 1) / 1000 := by
  constructor
  · rfl
  · decide

/-! ## Hourly-map lemmas -/

theorem lookup_replace (m : List (ℤ × ℚ)) (k k2 : ℤ) (v : ℚ) (hne : k2 ≠ k) :
    lookup (m.map (fun e => if e.1 = k then (k, v) else e)) k2 = lookup m k2 := by
  induction m with
  | nil => rfl
  | cons e m ih =>
    by_cases he : e.1 = k
    · rw [List.map_cons, if_pos he]
      rw [show lookup ((k, v) :: List.map (fun e => if e.1 = k then (k, v) else e) m) k2 =
        if k = k2 then some v else lookup (List.map (fun e => if e.1 = k then (k, v) else e) m) k2
        from rfl]
      rw [if_neg (fun h => hne h.symm), ih]
      rw [show lookup (e :: m) k2 = if e.1 = k2 then some e.2 else lookup m k2 from rfl]
      rw [if_neg (fun h => hne (he ▸ h).symm)]
    · rw [List.map_cons, if_neg he]
      rw [show lookup (e :: List.map (fun e => if e.1 = k then (k, v) else e) m) k2 =
        if e.1 = k2 then some e.2 else
          lookup (List.map (fun e => if e.1 = k then (k, v) else e) m) k2 from rfl]
      rw [show lookup (e :: m) k2 = if e.1 = k2 then some e.2 else lookup m k2 from rfl]
      by_cases h2 : e.1 = k2
      · rw [if_pos h2, if_pos h2]
      · rw [if_neg h2, if_neg h2, ih]

theorem lookup_replace_self (m : List (ℤ × ℚ)) (k : ℤ) (v : ℚ)
    (hany : (m.any (fun e => decide (e.1 = k))) = true) :
    lookup (m.map (fun e => if e.1 = k then (k, v) else e)) k = some v := by
  induction m with
  | nil => simp at hany
  | cons e m ih =>
    by_cases he : e.1 = k
    · rw [List.map_cons, if_pos he]
      rw [show lookup ((k, v) :: List.map (fun e => if e.1 = k then (k, v) else e) m) k =
        if k = k then some v else lookup (List.map (fun e => if e.1 = k then (k, v) else e) m) k
        from rfl]
      rw [if_pos rfl]
    · rw [List.map_cons, if_neg he]
      rw [show lookup (e :: List.map (fun e => if e.1 = k then (k, v) else e) m) k =
        if e.1 = k then some e.2 else
          lookup (List.map (fun e => if e.1 = k then (k, v) else e) m) k from rfl]
      rw [if_neg he]
      apply ih
      simp only [List.any_cons, Bool.or_eq_true, decide_eq_true_eq] at hany
      rcases hany with h | h
      · exact absurd h he
      · simpa using h

theorem lookup_append (m1 m2 : List (ℤ × ℚ)) (k : ℤ) :
    lookup (m1 ++ m2) k =
      (match lookup m1 k with
       | some v => some v
       | none => lookup m2 k) := by
  induction m1 with
  | nil => rfl
  | cons e m1 ih =>
    rw [List.cons_append]
    rw [show lookup (e :: (m1 ++ m2)) k = if e.1 = k then some e.2 else lookup (m1 ++ m2) k
      from rfl]
    rw [show lookup (e :: m1) k = if e.1 = k then some e.2 else lookup m1 k from rfl]
    by_cases he : e.1 = k
    · rw [if_pos he, if_pos he]
    · rw [if_neg he, if_neg he, ih]

theorem lookup_eq_none (m : List (ℤ × ℚ)) (k : ℤ)
    (h : (m.any (fun e => decide (e.1 = k))) = false) : lookup m k = none := by
  induction m with
  | nil => rfl
  | cons e m ih =>
    simp only [List.any_cons, Bool.or_eq_false_iff, decide_eq_false_iff_not] at h
    rw [show lookup (e :: m) k = if e.1 = k then some e.2 else lookup m k from rfl]
    rw [if_neg h.1]
    exact ih (by simpa using h.2)

theorem lookup_mapSet (m : List (ℤ × ℚ)) (k : ℤ) (v : ℚ) (k2 : ℤ) :
    lookup (mapSet m k v) k2 = if k2 = k then some v else lookup m k2 := by
  unfold mapSet
  by_cases hany : (m.any (fun e => decide (e.1 = k))) = true
  · rw [if_pos hany]
    by_cases hk : k2 = k
    · subst hk
      rw [if_pos rfl]
      exact lookup_replace_self m k2 v hany
    · rw [if_neg hk]
      exact lookup_replace m k k2 v hk
  · rw [if_neg hany, lookup_append]
    have hfalse : (m.any (fun e => decide (e.1 = k))) = false :=
      Bool.eq_false_iff.mpr hany
    by_cases hk : k2 = k
    · subst hk
      rw [if_pos rfl, lookup_eq_none m k2 hfalse]
      show lookup [(k2, v)] k2 = some v
      rw [show lookup [(k2, v)] k2 = if k2 = k2 then some v else lookup [] k2 from rfl]
      rw [if_pos rfl]
    · rw [if_neg hk]
      cases hl : lookup m k2 with
      | none =>
        show lookup [(k, v)] k2 = none
        rw [show lookup [(k, v)] k2 = if k = k2 then some v else lookup [] k2 from rfl]
        rw [if_neg (fun h : k = k2 => hk h.symm)]
        rfl
      | some w => rfl

theorem keys_replace (m : List (ℤ × ℚ)) (k : ℤ) (v : ℚ) :
    (m.map (fun e => if e.1 = k then (k, v) else e)).map Prod.fst = m.map Prod.fst := by
  rw [List.map_map]
  apply List.map_congr_left
  intro e _
  by_cases he : e.1 = k
  · simp [he]
  · simp [he]

theorem nodupKeys_mapSet (m : List (ℤ × ℚ)) (k : ℤ) (v : ℚ)
    (h : (m.map Prod.fst).Nodup) : ((mapSet m k v).map Prod.fst).Nodup := by
  unfold mapSet
  split
  · rwa [keys_replace]
  · rename_i hany
    rw [List.map_append, List.nodup_append]
    refine ⟨h, by simp, ?_⟩
    intro a ha hb
    simp only [List.map_cons, List.map_nil, List.mem_singleton] at hb
    subst hb
    rw [List.mem_map] at ha
    obtain ⟨e, he, hek⟩ := ha
    exact hany (List.any_eq_true.mpr ⟨e, he, by simp [hek]⟩)

theorem hourlyMapBuild_append (rows : List DataPoint) (r : DataPoint) :
    hourlyMapBuild (rows ++ [r]) =
      mapSet (hourlyMapBuild rows) (truncHour r.ts) r.count := by
  simp [hourlyMapBuild, List.foldl_append]

theorem nodupKeys_hourlyMapBuild (rows : List DataPoint) :
    ((hourlyMapBuild rows).map Prod.fst).Nodup := by
  induction rows using List.reverseRecOn with
  | nil => simp [hourlyMapBuild]
  | append_singleton rows r ih =>
    rw [hourlyMapBuild_append]
    exact nodupKeys_mapSet _ _ _ ih

theorem lookup_hourlyMapBuild (rows : List DataPoint) (h : ℤ) :
    lookup (hourlyMapBuild rows) h =
      ((hourRows rows h).getLast?).map (fun r => r.count) := by
  induction rows using List.reverseRecOn with
  | nil => rfl
  | append_singleton rows r ih =>
    rw [hourlyMapBuild_append, lookup_mapSet]
    unfold hourRows
    rw [List.filter_append]
    by_cases hr : truncHour r.ts = h
    · rw [if_pos hr.symm]
      rw [show List.filter (fun r => decide (truncHour r.ts = h)) [r] = [r] by simp [hr]]
      rw [List.getLast?_concat]
      rfl
    · rw [if_neg (fun hh => hr hh.symm)]
      rw [show List.filter (fun r => decide (truncHour r.ts = h)) [r] = [] by simp [hr]]
      rw [List.append_nil]
      exact ih

theorem mem_iff_lookup (m : List (ℤ × ℚ)) (hn : (m.map Prod.fst).Nodup) (k : ℤ)
    (v : ℚ) : (k, v) ∈ m ↔ lookup m k = some v := by
  induction m with
  | nil => simp [lookup]
  | cons e m ih =>
    simp only [List.map_cons, List.nodup_cons] at hn
    obtain ⟨hk, hn2⟩ := hn
    rw [show lookup (e :: m) k = if e.1 = k then some e.2 else lookup m k from rfl]
    by_cases he : e.1 = k
    · rw [if_pos he, List.mem_cons]
      constructor
      · rintro (heq | hm)
        · exact congrArg some (congrArg Prod.snd heq.symm)
        · exfalso
          exact hk (he ▸ List.mem_map.mpr ⟨(k, v), hm, rfl⟩)
      · intro hv
        left
        have hv2 : v = e.2 := (Option.some.inj hv).symm
        rw [hv2, ← he]
    · rw [if_neg he, List.mem_cons]
      constructor
      · rintro (heq | hm)
        · exact absurd (congrArg Prod.fst heq.symm) he
        · exact (ih hn2).mp hm
      · intro hv
        exact Or.inr ((ih hn2).mpr hv)

theorem mem_hourlyData (rows : List DataPoint) (p : DataPoint) :
    p ∈ hourlyData rows ↔
      (p.ts, p.count) ∈ List.insertionSort keyLE (hourlyMapBuild rows) := by
  unfold hourlyData
  rw [List.mem_map]
  constructor
  · rintro ⟨e, he, rfl⟩
    simpa using he
  · intro hmem
    exact ⟨(p.ts, p.count), hmem, rfl⟩

theorem hourlyData_sorted (rows : List DataPoint) :
    List.Pairwise (fun a b => a.ts < b.ts) (hourlyData rows) := by
  have hs : List.Sorted keyLE (List.insertionSort keyLE (hourlyMapBuild rows)) :=
    List.sorted_insertionSort keyLE _
  have hperm := List.perm_insertionSort keyLE (hourlyMapBuild rows)
  have hnS : ((List.insertionSort keyLE (hourlyMapBuild rows)).map Prod.fst).Nodup :=
    (hperm.map Prod.fst).nodup_iff.mpr (nodupKeys_hourlyMapBuild rows)
  have hne : List.Pairwise (fun a b : ℤ × ℚ => a.1 ≠ b.1)
      (List.insertionSort keyLE (hourlyMapBuild rows)) := List.pairwise_map.mp hnS
  have hcomb := (List.Pairwise.and hs hne).imp
    (fun hab => lt_of_le_of_ne hab.1 hab.2)
  unfold hourlyData
  rw [List.pairwise_map]
  exact hcomb

theorem le_ts_getLast :
    ∀ (l : List DataPoint), List.Pairwise (fun a b => a.ts ≤ b.ts) l →
      ∀ y : DataPoint, l.getLast? = some y → ∀ x ∈ l, x.ts ≤ y.ts := by
  intro l
  induction l with
  | nil => intro _ y hy; simp at hy
  | cons a l ih =>
    intro hs y hy x hx
    cases l with
    | nil =>
      simp only [List.getLast?_singleton, Option.some.injEq] at hy
      subst hy
      simp only [List.mem_singleton] at hx
      subst hx
      exact le_refl _
    | cons b l2 =>
      rw [List.getLast?_cons_cons] at hy
      rcases List.mem_cons.mp hx with rfl | hx2
      · have hymem : y ∈ b :: l2 := List.mem_of_mem_getLast? hy
        exact (List.pairwise_cons.mp hs).1 y hymem
      · exact ih (List.pairwise_cons.mp hs).2 y hy x hx2

/-! ## Claim C6: hourly downsampling -/

/-- Claim C6: for raw rows in chronological order, the hourly downsample
contains exactly one sample per distinct hour present in the input, sorted
ascending by hour; each output sample's hour is its truncated timestamp
and its count is that of the chronologically last row in that hour. -/
theorem claim_C6_hourly_downsample (rows : List DataPoint)
    (hsort : List.Pairwise (fun a b => a.ts ≤ b.ts) rows) :
    List.Pairwise (fun a b => a.ts < b.ts) (hourlyData rows) ∧
    (∀ h : ℤ, (∃ r ∈ rows, truncHour r.ts = h) ↔ ∃ p ∈ hourlyData rows, p.ts = h) ∧
    (∀ p ∈ hourlyData rows,
      ∃ r ∈ rows, truncHour r.ts = p.ts ∧ r.count = p.count ∧
        ∀ r2 ∈ rows, truncHour r2.ts = p.ts → r2.ts ≤ r.ts) := by
  have hnodupB := nodupKeys_hourlyMapBuild rows
  have hperm := List.perm_insertionSort keyLE (hourlyMapBuild rows)
  refine ⟨hourlyData_sorted rows, ?_, ?_⟩
  · intro h
    constructor
    · rintro ⟨r, hr, hrh⟩
      have hrf : r ∈ hourRows rows h := by
        unfold hourRows
        rw [List.mem_filter]
        exact ⟨hr, by simp [hrh]⟩
      have hne : hourRows rows h ≠ [] := fun hnil => by
        rw [hnil] at hrf
        exact absurd hrf (List.not_mem_nil r)
      obtain ⟨y, hy⟩ := Option.isSome_iff_exists.mp (List.getLast?_isSome.mpr hne)
      have hlk : lookup (hourlyMapBuild rows) h = some y.count := by
        rw [lookup_hourlyMapBuild, hy]
        rfl
      have hmem : (h, y.count) ∈ hourlyMapBuild rows :=
        (mem_iff_lookup _ hnodupB h y.count).mpr hlk
      refine ⟨⟨h, y.count⟩, ?_, rfl⟩
      exact (mem_hourlyData rows ⟨h, y.count⟩).mpr (hperm.mem_iff.mpr hmem)
    · rintro ⟨p, hp, rfl⟩
      have hmem := hperm.mem_iff.mp ((mem_hourlyData rows p).mp hp)
      have hlk := (mem_iff_lookup _ hnodupB p.ts p.count).mp hmem
      rw [lookup_hourlyMapBuild] at hlk
      cases hy : (hourRows rows p.ts).getLast? with
      | none => rw [hy] at hlk; exact absurd hlk (by simp)
      | some y =>
        have hymem : y ∈ hourRows rows p.ts := List.mem_of_mem_getLast? hy
        unfold hourRows at hymem
        rw [List.mem_filter] at hymem
        exact ⟨y, hymem.1, by simpa using hymem.2⟩
  · intro p hp
    have hmem := hperm.mem_iff.mp ((mem_hourlyData rows p).mp hp)
    have hlk := (mem_iff_lookup _ hnodupB p.ts p.count).mp hmem
    rw [lookup_hourlyMapBuild] at hlk
    cases hy : (hourRows rows p.ts).getLast? with
    | none => rw [hy] at hlk; exact absurd hlk (by simp)
    | some y =>
      rw [hy] at hlk
      have hymem : y ∈ hourRows rows p.ts := List.mem_of_mem_getLast? hy
      have hymem2 := hymem
      unfold hourRows at hymem2
      rw [List.mem_filter] at hymem2
      refine ⟨y, hymem2.1, by simpa using hymem2.2, ?_, ?_⟩
      · exact (Option.some.inj hlk)
      · intro r2 hr2 hr2h
        have hr2f : r2 ∈ hourRows rows p.ts := by
          unfold hourRows
          rw [List.mem_filter]
          exact ⟨hr2, by simp [hr2h]⟩
        have hsf : List.Pairwise (fun a b => a.ts ≤ b.ts) (hourRows rows p.ts) :=
          List.Pairwise.sublist (List.filter_sublist rows) hsort
        exact le_ts_getLast _ hsf y hy r2 hr2f

/-- Witness for claim C6 on two rows sharing the hour starting at 0. -/
theorem claim_C6_hourly_downsample_witness :
    List.Pairwise (fun a b => a.ts < b.ts) (hourlyData [⟨0, 1⟩, ⟨60000, 2⟩]) :=
  (claim_C6_hourly_downsample [⟨0, 1⟩, ⟨60000, 2⟩] (by decide)).1

/-! ## Claim C2: average rate and peak over the three-sample scenario -/

/-- The scenario series `[(t0, 0), (t0 + 30m, 10), (t0 + 90m, 40)]` with
`t0 = 0`. -/
def scenarioSeries : List DataPoint := [⟨0, 0⟩, ⟨1800000, 10⟩, ⟨5400000, 40⟩]

/-- Claim C2: on the series `[(t0, 0), (t0 + 30m, 10), (t0 + 90m, 40)]` the
average rate is `40 / 1.5 = 80/3` and the sliding-window peak estimator
returns 30, attained by the window ending at `t0 + 90m`, where the
interpolator gives `valueAt(t0 + 90m) = 40` and `valueAt(t0 + 30m) = 10`. -/
theorem claim_C2_scenario_avg_and_peak :
    avgPerHour ⟨0, 0⟩ ⟨5400000, 40⟩ = 40 / (3 / 2) ∧
    avgPerHour ⟨0, 0⟩ ⟨5400000, 40⟩ = 80 / 3 ∧
    interpCount scenarioSeries 5400000 = 40 ∧
    interpCount scenarioSeries 1800000 = 10 ∧
    interpCount scenarioSeries 5400000 - interpCount scenarioSeries 1800000 = 30 ∧
    peakHourly scenarioSeries = 30 := by
  refine ⟨by norm_num [avgPerHour], by norm_num [avgPerHour], ?_, ?_, ?_, ?_⟩ <;>
    norm_num [interpCount, scenarioSeries, searchLoop, peakHourly]

/-! ## Claim C7: completion estimate -/

/-- Claim C7: the completion estimate and days-remaining are produced iff
the average rate and the remaining count are both positive, in which case
`hoursRemaining = remaining / avg`, `daysRemaining = ceil(hoursRemaining /
24)` and `estimatedCompletion = now + hoursRemaining`; otherwise the
estimate is absent and days-remaining is 0.  In particular target 5000,
latest 4500 and rate 10 give 3 days remaining and completion 50 hours from
now. -/
theorem claim_C7_eta (targetCount latestCount avg now : ℚ) :
    (0 < avg → 0 < targetCount - latestCount →
      etaPair targetCount latestCount avg now =
        (some (now + (targetCount - latestCount) / avg * (60 * 60 * 1000)),
         ⌈(targetCount - latestCount) / avg / 24⌉)) ∧
    (¬(0 < avg ∧ 0 < targetCount - latestCount) →
      etaPair targetCount latestCount avg now = (none, 0)) ∧
    etaPair 5000 4500 10 now = (some (now + 50 * (60 * 60 * 1000)), 3) := by
  refine ⟨fun h1 h2 => ?_, fun h => ?_, ?_⟩
  · simp [etaPair, h1, h2]
  · simp only [etaPair]
    rw [if_neg h]
  · norm_num [etaPair, Int.ceil_eq_iff]

/-- Witness for claim C7 at the scenario input. -/
theorem claim_C7_eta_witness :
    etaPair 5000 4500 10 0 =
      (some ((0 : ℚ) + (5000 - 4500) / 10 * (60 * 60 * 1000)),
       ⌈(5000 - 4500) / (10 : ℚ) / 24⌉) :=
  (claim_C7_eta 5000 4500 10 0).1 (by norm_num) (by norm_num)

/-! ## Claims C8 and C10: the Live Updater -/

/-- Claim C8: the realtime handler reads the count from the new row if
present else the old row, and on a successful numeric parse updates only
the displayed count and the last-updated label; on anything else it leaves
the state unchanged (and, being a total function, never throws).  In
particular a payload with `count = "123"` sets the count to 123 and one
with `count = "abc"` changes nothing. -/
theorem claim_C8_realtime_handler (st : UiState) (p : RtPayload) :
    ((handleRealtime st p).data = st.data ∧
     (handleRealtime st p).loading = st.loading ∧
     (handleRealtime st p).stats = st.stats) ∧
    (handleRealtime st p = st ∨
      ∃ row q, (p.nw = some row ∨ (p.nw = none ∧ p.old = some row)) ∧
        jsToNumber row.count = some q ∧
        handleRealtime st p =
          { st with currentCount := q, lastUpdated := "< 1 min ago" }) ∧
    handleRealtime st ⟨some ⟨JsVal.str "123"⟩, none⟩ =
      { st with currentCount := 123, lastUpdated := "< 1 min ago" } ∧
    handleRealtime st ⟨some ⟨JsVal.str "abc"⟩, none⟩ = st := by
  obtain ⟨nw, old⟩ := p
  refine ⟨?_, ?_, rfl, rfl⟩
  · cases nw with
    | none =>
      cases old with
      | none => simp [handleRealtime]
      | some row =>
        cases h : jsToNumber row.count with
        | none => simp [handleRealtime, h]
        | some q => simp [handleRealtime, h]
    | some row =>
      cases h : jsToNumber row.count with
      | none => simp [handleRealtime, h]
      | some q => simp [handleRealtime, h]
  · cases nw with
    | none =>
      cases old with
      | none => exact Or.inl (by simp [handleRealtime])
      | some row =>
        cases h : jsToNumber row.count with
        | none => exact Or.inl (by simp [handleRealtime, h])
        | some q =>
          exact Or.inr ⟨row, q, Or.inr ⟨rfl, rfl⟩, h, by simp [handleRealtime, h]⟩
    | some row =>
      cases h : jsToNumber row.count with
      | none => exact Or.inl (by simp [handleRealtime, h])
      | some q =>
        exact Or.inr ⟨row, q, Or.inl rfl, h, by simp [handleRealtime, h]⟩

/-- Claim C10: the handler's only malformed-payload gate is
`isNaN(Number(count))`: with a new row present, the state is updated
exactly when the count coerces to a number; the empty string coerces to 0,
so a payload with `count = ""` sets the displayed count to 0 instead of
being ignored. -/
theorem claim_C10_empty_string_accepted (st : UiState) (row : JsRecord) :
    handleRealtime st ⟨some row, none⟩ =
      (jsToNumber row.count).elim st
        (fun q => { st with currentCount := q, lastUpdated := "< 1 min ago" }) ∧
    jsToNumber (JsVal.str "") = some 0 ∧
    handleRealtime st ⟨some ⟨JsVal.str ""⟩, none⟩ =
      { st with currentCount := 0, lastUpdated := "< 1 min ago" } := by
  refine ⟨?_, rfl, rfl⟩
  cases h : jsToNumber row.count with
  | none => simp [handleRealtime, h]
  | some q => simp [handleRealtime, h]

end MoonshotCounter
